import Mathlib

/-!
Verification of the grid layout engine and edit history manager of the
visual builder: blocks on a 12-column grid with reorder (drag and drop),
edge-drag resize, and a linear undo/redo history capped at 50 snapshots.

The definitions below transliterate the TypeScript source:
calculateNextPosition, addToHistory, undo, redo (page.tsx),
handleComponentReorder (DragAndDropArea), and the resize mouse-move
handler (TextComponent.tsx).
-/

/-- Kind of a block: text or image, mirroring the `type` field. -/
inductive BlockKind where
  | text
  | image
deriving DecidableEq, Repr

/-- Grid position: x is the starting column, y the row index. -/
structure GridPos where
  x : Int
  y : Int
deriving DecidableEq, Repr

/-- A block on the 12-column grid, mirroring the `Component` interface. -/
structure Block where
  id : String
  type : BlockKind
  content : String
  width : Int
  position : GridPos
deriving DecidableEq, Repr

/-- Right edge of a block: first column after its interval. -/
def Block.endX (b : Block) : Int := b.position.x + b.width

/-- Two blocks do not collide: different rows, or disjoint column intervals. -/
def sep (a b : Block) : Prop :=
  a.position.y ≠ b.position.y ∨
  a.position.x + a.width ≤ b.position.x ∨
  b.position.x + b.width ≤ a.position.x

instance : DecidableRel sep := fun a b => by
  unfold sep
  exact inferInstance

/-- The layout invariant: all blocks on a common row occupy pairwise
disjoint column intervals. -/
def NoOverlap (l : List Block) : Prop := l.Pairwise sep

instance (l : List Block) : Decidable (NoOverlap l) :=
  List.instDecidablePairwise l

/-- State of the builder: current layout, snapshot list, history cursor. -/
structure AppState where
  components : List Block
  history : List (List Block)
  historyIndex : Int
deriving DecidableEq, Repr

/-- Initial state: empty layout, empty history, cursor -1. -/
def initState : AppState :=
  { components := [], history := [], historyIndex := -1 }

/-- addToHistory from page.tsx: truncate after the cursor, append the new
snapshot; on overflow past 50 drop the oldest snapshot and leave the cursor
untouched, otherwise point the cursor at the new last slot.  The current
layout is set to the committed snapshot (the callers always pass the list
they just set). -/
def commitState (s : AppState) (snap : List Block) : AppState :=
  let newHistory := s.history.take (s.historyIndex + 1).toNat ++ [snap]
  if 50 < newHistory.length then
    { components := snap, history := newHistory.tail, historyIndex := s.historyIndex }
  else
    { components := snap, history := newHistory,
      historyIndex := (newHistory.length : Int) - 1 }

/-- undo from page.tsx: step the cursor back and restore that snapshot,
a no-op unless the cursor is positive. -/
def undoState (s : AppState) : AppState :=
  if 0 < s.historyIndex then
    { s with historyIndex := s.historyIndex - 1,
             components := s.history.getD (s.historyIndex - 1).toNat [] }
  else s

/-- redo from page.tsx: step the cursor forward and restore that snapshot,
a no-op at the end of the history. -/
def redoState (s : AppState) : AppState :=
  if s.historyIndex < (s.history.length : Int) - 1 then
    { s with historyIndex := s.historyIndex + 1,
             components := s.history.getD (s.historyIndex + 1).toNat [] }
  else s

/-- calculateNextPosition from page.tsx: position for a new default block,
computed from the last-inserted block only. -/
def calculateNextPosition (components : List Block) : GridPos :=
  match components.getLast? with
  | none => { x := 0, y := 0 }
  | some lastComponent =>
    let nextX := lastComponent.position.x + lastComponent.width
    if nextX + 6 ≤ 12 then { x := nextX, y := lastComponent.position.y }
    else { x := 0, y := lastComponent.position.y + 1 }

/-- Default markdown content of a new text block. -/
def defaultTextContent : String :=
  "# New Text Component\n\nEnter your markdown content here...\n\n- **Bold text**\n- *Italic text*\n- `Code snippets`"

/-- Default URL content of a new image block. -/
def defaultImageContent : String := "https://placehold.co/600x400"

/-- createComponent from page.tsx: a fresh block of the given kind with
default width 6 and kind-specific default content. -/
def mkBlock (k : BlockKind) (newId : String) (pos : GridPos) : Block :=
  match k with
  | .text =>
    { id := newId, type := .text, content := defaultTextContent,
      width := 6, position := pos }
  | .image =>
    { id := newId, type := .image, content := defaultImageContent,
      width := 6, position := pos }

/-- addComponent from page.tsx: append a freshly created block and commit. -/
def addEvent (s : AppState) (k : BlockKind) (newId : String) : AppState :=
  commitState s
    (s.components ++ [mkBlock k newId (calculateNextPosition s.components)])

/-- deleteComponent from page.tsx: remove the block by id and commit. -/
def deleteEvent (s : AppState) (cid : String) : AppState :=
  commitState s (s.components.filter (fun c => decide (c.id ≠ cid)))

/-- The predicate of the target lookup in handleComponentReorder: another
block whose row is the drop row and whose column interval contains the
drop column. -/
def isReorderTarget (movingId : String) (gridX gridY : Int) (c : Block) : Prop :=
  c.id ≠ movingId ∧ c.position.y = gridY ∧
  c.position.x ≤ gridX ∧ gridX < c.position.x + c.width

instance (movingId : String) (gridX gridY : Int) :
    DecidablePred (isReorderTarget movingId gridX gridY) := fun c => by
  unfold isReorderTarget
  exact inferInstance

/-- The swap branch of handleComponentReorder: the dragged block takes the
target's old position, the target takes the dragged block's old position,
widths untouched, every other block unchanged. -/
def swapPositions (components : List Block) (movingId : String)
    (dragged target : Block) : List Block :=
  components.map (fun c =>
    if c.id = movingId then { c with position := target.position }
    else if c.id = target.id then { c with position := dragged.position }
    else c)

/-- The no-target branch of handleComponentReorder: place the dragged block
at the drop cell, clamping x so the block stays inside the 12 columns. -/
def placeAt (components : List Block) (movingId : String) (dragged : Block)
    (gridX gridY : Int) : List Block :=
  let nx := if 12 < gridX + dragged.width then max 0 (12 - dragged.width) else gridX
  components.map (fun c =>
    if c.id = movingId then { c with position := { x := nx, y := gridY } } else c)

/-- handleComponentReorder from DragAndDropArea, after the drop point has
been converted to a grid cell: none models the silent early return when the
dragged id is not found. -/
def reorder (components : List Block) (movingId : String)
    (gridX gridY : Int) : Option (List Block) :=
  match components.find? (fun c => decide (c.id = movingId)) with
  | none => none
  | some dragged =>
    match components.find? (fun c => decide (isReorderTarget movingId gridX gridY c)) with
    | some target => some (swapPositions components movingId dragged target)
    | none => some (placeAt components movingId dragged gridX gridY)

/-- The reorder drop event: a not-found id leaves the whole state (layout
and history) untouched; otherwise the new layout is committed. -/
def reorderEvent (s : AppState) (movingId : String) (gridX gridY : Int) : AppState :=
  match reorder s.components movingId gridX gridY with
  | none => s
  | some updated => commitState s updated

/-- Direction of an edge-drag resize. -/
inductive ResizeDir where
  | left
  | right
deriving DecidableEq, Repr

/-- One mouse-move of the resize drag from TextComponent.tsx: candidate
width/x computed from the values captured at drag start and the pixel
delta, applied only when it stays inside the grid, otherwise the previous
live values are kept.  Rounding matches Math.round (half toward plus
infinity) via floor division. -/
def resizeMove (dir : ResizeDir) (startWidth startX : Int)
    (cur : Int × Int) (deltaX : Int) : Int × Int :=
  let deltaColumns := Int.fdiv (deltaX + 50) 100
  let newWidth :=
    match dir with
    | .left => max 1 (min 12 (startWidth - deltaColumns))
    | .right => max 1 (min 12 (startWidth + deltaColumns))
  let newPosition :=
    match dir with
    | .left => startX + (startWidth - newWidth)
    | .right => startX
  if newPosition + newWidth ≤ 12 ∧ 0 ≤ newPosition then (newWidth, newPosition)
  else cur

/-- The whole drag: fold the mouse moves from the captured start values;
the result is what the mouse-up commits. -/
def applyResize (b : Block) (dir : ResizeDir) (deltas : List Int) : Block :=
  let fin := deltas.foldl (resizeMove dir b.width b.position.x) (b.width, b.position.x)
  { b with width := fin.1, position := { b.position with x := fin.2 } }

/-- A finished resize drag: replace the block by its resized value and
commit (the mouse-up handler calls onUpdate with the final values). -/
def resizeEvent (s : AppState) (cid : String) (dir : ResizeDir)
    (deltas : List Int) : AppState :=
  commitState s
    (s.components.map (fun c => if c.id = cid then applyResize c dir deltas else c))

/-- The clamp of the specification text. -/
def specClamp (v lo hi : Int) : Int := max lo (min hi v)

/-- States reachable by the session operations of the claim set:
add, reorder (with a drop cell produced by calculateGridPosition, hence
0 ≤ gridX ≤ 11 and 0 ≤ gridY), resize, delete, undo, redo. -/
inductive Reachable : AppState → Prop where
  | init : Reachable initState
  | add {s} (h : Reachable s) (k : BlockKind) (newId : String) :
      Reachable (addEvent s k newId)
  | reorderStep {s} (h : Reachable s) (movingId : String) (gridX gridY : Int)
      (hx0 : 0 ≤ gridX) (hx1 : gridX ≤ 11) (hy : 0 ≤ gridY) :
      Reachable (reorderEvent s movingId gridX gridY)
  | resizeStep {s} (h : Reachable s) (cid : String) (dir : ResizeDir)
      (deltas : List Int) : Reachable (resizeEvent s cid dir deltas)
  | deleteStep {s} (h : Reachable s) (cid : String) :
      Reachable (deleteEvent s cid)
  | undoStep {s} (h : Reachable s) : Reachable (undoState s)
  | redoStep {s} (h : Reachable s) : Reachable (redoState s)

/-- States reachable by commit, undo and redo alone, from the empty
history. -/
inductive HistReachable : AppState → Prop where
  | init : HistReachable initState
  | commit {s} (h : HistReachable s) (snap : List Block) :
      HistReachable (commitState s snap)
  | undo {s} (h : HistReachable s) : HistReachable (undoState s)
  | redo {s} (h : HistReachable s) : HistReachable (redoState s)

/-! ## Helper lemmas -/

lemma redoState_history (t : AppState) : (redoState t).history = t.history := by
  unfold redoState
  split <;> rfl

lemma undoState_history (t : AppState) : (undoState t).history = t.history := by
  unfold undoState
  split <;> rfl

lemma commitState_components (s : AppState) (snap : List Block) :
    (commitState s snap).components = snap := by
  simp only [commitState]
  split <;> rfl

lemma commitState_history_mem (s : AppState) (snap : List Block) :
    ∀ x ∈ (commitState s snap).history,
      x = snap ∨ x ∈ s.history.take (s.historyIndex + 1).toNat := by
  intro x hx
  simp only [commitState] at hx
  split at hx <;> simp only at hx
  · have hx2 : x ∈ s.history.take (s.historyIndex + 1).toNat ++ [snap] :=
      List.mem_of_mem_tail hx
    rcases List.mem_append.mp hx2 with h | h
    · exact Or.inr h
    · exact Or.inl (List.mem_singleton.mp h)
  · rcases List.mem_append.mp hx with h | h
    · exact Or.inr h
    · exact Or.inl (List.mem_singleton.mp h)

lemma commitState_index_nonneg (s : AppState) (snap : List Block) :
    0 ≤ (commitState s snap).historyIndex := by
  simp only [commitState]
  split
  · simp only
    rename_i h
    rw [List.length_append, List.length_take, List.length_singleton] at h
    omega
  · simp only
    rename_i h
    rw [List.length_append, List.length_take, List.length_singleton] at h ⊢
    omega

lemma getD_default_or_mem (l : List (List Block)) (n : Nat) :
    l.getD n [] = [] ∨ l.getD n [] ∈ l := by
  by_cases h : n < l.length
  · right
    rw [List.getD_eq_getElem l [] h]
    exact List.getElem_mem h
  · left
    simp [List.getD_eq_getElem?_getD, List.getElem?_eq_none (by omega : l.length ≤ n)]

/-! ## C5: calculateNextPosition -/

/-- C5: calculateNextPosition returns (0,0) on the empty layout; otherwise
it is a function of the last-inserted block alone: with nextX the last
block's right edge, it returns (nextX, last row) when nextX + 6 ≤ 12 and
(0, next row) otherwise.  It never inspects any other block. -/
theorem calculate_next_position_spec :
    calculateNextPosition [] = { x := 0, y := 0 }
    ∧ (∀ (l : List Block) (lastB : Block), l.getLast? = some lastB →
        calculateNextPosition l =
          (if lastB.position.x + lastB.width + 6 ≤ 12 then
            { x := lastB.position.x + lastB.width, y := lastB.position.y }
          else { x := 0, y := lastB.position.y + 1 }))
    ∧ (∀ l₁ l₂ : List Block, l₁.getLast? = l₂.getLast? →
        calculateNextPosition l₁ = calculateNextPosition l₂) := by
  refine ⟨rfl, ?_, ?_⟩
  · intro l lastB h
    unfold calculateNextPosition
    rw [h]
  · intro l₁ l₂ h
    unfold calculateNextPosition
    rw [h]

/-- Concrete block used by several witnesses. -/
def wBlk : Block :=
  { id := "w", type := .text, content := "", width := 6, position := { x := 0, y := 0 } }

/-- Witness for C5: a one-block layout whose block sits at (0,0) with
width 6 yields (6,0) for the next block. -/
theorem calculate_next_position_spec_witness :
    calculateNextPosition [wBlk] = { x := 6, y := 0 } := by
  rw [calculate_next_position_spec.2.1 [wBlk] wBlk rfl]
  decide

/-! ## C6: resize mouse-move -/

/-- C6: a resize mouse-move computes deltaColumns by half-up rounding of
deltaPixels / 100; rightward drags clamp startWidth + deltaColumns into
[1,12] keeping x; leftward drags clamp startWidth - deltaColumns into
[1,12] and move x to keep the right edge fixed; the candidate is applied
only when x + width ≤ 12 and 0 ≤ x, otherwise the previous live values are
returned unchanged.  In particular a width-6 block at x = 0 dragged right
by 250 pixels becomes width 9 at x = 0. -/
theorem resize_move_spec :
    (∀ sw sx d : Int, ∀ cur : Int × Int,
      resizeMove .right sw sx cur d =
        (let dc := Int.fdiv (d + 50) 100
         let nw := specClamp (sw + dc) 1 12
         if sx + nw ≤ 12 ∧ 0 ≤ sx then (nw, sx) else cur))
    ∧ (∀ sw sx d : Int, ∀ cur : Int × Int,
      resizeMove .left sw sx cur d =
        (let dc := Int.fdiv (d + 50) 100
         let nw := specClamp (sw - dc) 1 12
         let nx := sx + (sw - nw)
         if nx + nw ≤ 12 ∧ 0 ≤ nx then (nw, nx) else cur))
    ∧ (∀ sw sx d : Int,
        (let dc := Int.fdiv (d + 50) 100
         let nw := specClamp (sw - dc) 1 12
         let nx := sx + (sw - nw)
         nx + nw = sx + sw))
    ∧ resizeMove .right 6 0 (6, 0) 250 = (9, 0)
    ∧ Int.fdiv (250 + 50) 100 = 3 := by
  refine ⟨?_, ?_, ?_, by decide, by decide⟩
  · intro sw sx d cur
    rfl
  · intro sw sx d cur
    rfl
  · intro sw sx d
    simp only [specClamp]
    omega

/-! ## C9: reorder with an unknown id is a silent no-op -/

/-- C9: when the dragged id matches no block, reorder returns none and the
drop event leaves the whole state, history included, untouched. -/
theorem reorder_missing_id_noop (s : AppState) (mid : String) (gX gY : Int)
    (h : ∀ c ∈ s.components, c.id ≠ mid) :
    reorderEvent s mid gX gY = s ∧ reorder s.components mid gX gY = none := by
  have hf : s.components.find? (fun c => decide (c.id = mid)) = none := by
    rw [List.find?_eq_none]
    intro c hc
    simpa using h c hc
  have hr : reorder s.components mid gX gY = none := by
    unfold reorder
    rw [hf]
  refine ⟨?_, hr⟩
  unfold reorderEvent
  rw [hr]

/-- Witness state for C9: a single block with id "w". -/
def s9 : AppState :=
  { components := [wBlk], history := [[wBlk]], historyIndex := 0 }

/-- Witness for C9 at a concrete state and id not present in it. -/
theorem reorder_missing_id_noop_witness :
    reorderEvent s9 "zz" 3 0 = s9 :=
  (reorder_missing_id_noop s9 "zz" 3 0 (by decide)).1

/-! ## C10: undo and redo never modify the snapshot list -/

/-- C10: undo and redo leave the stored snapshot sequence (length and
every element) unchanged; only the cursor and current layout can change. -/
theorem undo_redo_preserve_history (s : AppState) :
    (undoState s).history = s.history ∧ (redoState s).history = s.history :=
  ⟨undoState_history s, redoState_history s⟩

/-! ## C4: history length never exceeds 50 -/

/-- C4: along any sequence of commit, undo and redo from the empty
history, the snapshot list never holds more than 50 snapshots. -/
theorem history_length_le_50 (s : AppState) (h : HistReachable s) :
    s.history.length ≤ 50 := by
  induction h with
  | init => simp [initState]
  | commit h snap ih =>
    rename_i t
    simp only [commitState]
    split
    · simp only
      rw [List.length_tail, List.length_append, List.length_take, List.length_singleton]
      omega
    · rename_i hle
      rw [List.length_append, List.length_take, List.length_singleton] at hle
      simp only
      rw [List.length_append, List.length_take, List.length_singleton]
      omega
  | undo h ih =>
    rename_i t
    rw [undoState_history]
    exact ih
  | redo h ih =>
    rename_i t
    rw [redoState_history]
    exact ih

/-- Witness for C4: one concrete commit from the empty history. -/
theorem history_length_le_50_witness :
    (commitState initState [wBlk]).history.length ≤ 50 :=
  history_length_le_50 _ (HistReachable.commit HistReachable.init [wBlk])

/-! ## C3: commit overflow behavior -/

/-- C3 (amended): when a commit overflows the cap of 50, the oldest
snapshot is dropped and the cursor value is left untouched; since every
remaining snapshot shifts down one index, that untouched cursor ends up
pointing at the LAST slot, which holds the snapshot just committed, so no
redo step is lost. -/
theorem commit_overflow_spec (s : AppState) (snap : List Block)
    (h1 : 49 ≤ s.historyIndex) (h2 : s.historyIndex < (s.history.length : Int)) :
    (commitState s snap).historyIndex = s.historyIndex
    ∧ (commitState s snap).history =
        (s.history.take (s.historyIndex + 1).toNat).tail ++ [snap]
    ∧ ((commitState s snap).history.length : Int) = s.historyIndex + 1
    ∧ (commitState s snap).historyIndex = ((commitState s snap).history.length : Int) - 1
    ∧ (commitState s snap).history.getLast? = some snap := by
  have hlen : (s.history.take (s.historyIndex + 1).toNat).length =
      (s.historyIndex + 1).toNat := by
    rw [List.length_take]
    omega
  have hover : 50 < (s.history.take (s.historyIndex + 1).toNat ++ [snap]).length := by
    rw [List.length_append, List.length_singleton, hlen]
    omega
  have hne : s.history.take (s.historyIndex + 1).toNat ≠ [] := by
    apply List.ne_nil_of_length_pos
    omega
  obtain ⟨x, xs, hx⟩ := List.exists_cons_of_ne_nil hne
  have hcommit : commitState s snap =
      { components := snap,
        history := (s.history.take (s.historyIndex + 1).toNat ++ [snap]).tail,
        historyIndex := s.historyIndex } := by
    simp only [commitState]
    rw [if_pos hover]
  have htail : (s.history.take (s.historyIndex + 1).toNat ++ [snap]).tail =
      (s.history.take (s.historyIndex + 1).toNat).tail ++ [snap] := by
    rw [hx]
    rfl
  refine ⟨by rw [hcommit], by rw [hcommit, htail], ?_, ?_, ?_⟩
  · rw [hcommit, htail]
    simp only
    rw [List.length_append, List.length_singleton, List.length_tail, hlen]
    omega
  · rw [hcommit, htail]
    simp only
    rw [List.length_append, List.length_singleton, List.length_tail, hlen]
    omega
  · rw [hcommit, htail]
    simp only
    rw [List.getLast?_concat]

/-- Witness state for C3: a full history of 50 snapshots with the cursor
on the last one. -/
def s50 : AppState :=
  { components := [], history := List.replicate 50 [], historyIndex := 49 }

/-- Witness for C3: committing into the full history keeps the cursor
value and leaves it on the last slot. -/
theorem commit_overflow_spec_witness :
    (49 : Int) ≤ s50.historyIndex
    ∧ (commitState s50 [wBlk]).historyIndex = s50.historyIndex :=
  ⟨by decide, (commit_overflow_spec s50 [wBlk] (by decide) (by decide)).1⟩

/-- Counterexample for C3 as stated: after the 51st commit the cursor sits
at the last slot (index 49 of 50), not the second-to-last; the committed
snapshot is the current one and redo is a no-op, so no redo step is lost. -/
theorem commit_overflow_cursor_cex :
    (commitState s50 [wBlk]).history.length = 50
    ∧ (commitState s50 [wBlk]).historyIndex = 49
    ∧ (commitState s50 [wBlk]).historyIndex =
        ((commitState s50 [wBlk]).history.length : Int) - 1
    ∧ ¬ ((commitState s50 [wBlk]).historyIndex =
        ((commitState s50 [wBlk]).history.length : Int) - 2)
    ∧ (commitState s50 [wBlk]).history.getD 49 [] = [wBlk]
    ∧ redoState (commitState s50 [wBlk]) = commitState s50 [wBlk] := by
  decide

lemma undoState_of_pos (t : AppState) (h : 0 < t.historyIndex) :
    (undoState t).historyIndex = t.historyIndex - 1
    ∧ (undoState t).components = t.history.getD (t.historyIndex - 1).toNat []
    ∧ (undoState t).history = t.history := by
  unfold undoState
  rw [if_pos h]
  exact ⟨rfl, rfl, rfl⟩

lemma redoState_of_lt (t : AppState) (h : t.historyIndex < (t.history.length : Int) - 1) :
    (redoState t).historyIndex = t.historyIndex + 1
    ∧ (redoState t).components = t.history.getD (t.historyIndex + 1).toNat []
    ∧ (redoState t).history = t.history := by
  unfold redoState
  rw [if_pos h]
  exact ⟨rfl, rfl, rfl⟩

/-! ## C7: undo then redo restores the undone snapshot -/

/-- C7: with 0 < cursor < length (the documented history invariant), undo
followed by redo with no commit in between puts the cursor back and makes
the snapshot at the pre-undo cursor the current layout again; undo at
cursor ≤ 0 is a no-op. -/
theorem undo_redo_roundtrip (s : AppState)
    (h1 : 0 < s.historyIndex) (h2 : s.historyIndex < (s.history.length : Int)) :
    (redoState (undoState s)).historyIndex = s.historyIndex
    ∧ (redoState (undoState s)).components = s.history.getD s.historyIndex.toNat []
    ∧ (redoState (undoState s)).history = s.history
    ∧ (∀ t : AppState, t.historyIndex ≤ 0 → undoState t = t) := by
  obtain ⟨hu1, hu2, hu3⟩ := undoState_of_pos s h1
  have hcond : (undoState s).historyIndex < ((undoState s).history.length : Int) - 1 := by
    rw [hu1, hu3]
    omega
  obtain ⟨hr1, hr2, hr3⟩ := redoState_of_lt (undoState s) hcond
  refine ⟨?_, ?_, ?_, ?_⟩
  · rw [hr1, hu1]
    omega
  · rw [hr2, hu3, hu1]
    have harg : (s.historyIndex - 1 + 1).toNat = s.historyIndex.toNat := by omega
    rw [harg]
  · rw [hr3, hu3]
  · intro t ht
    unfold undoState
    rw [if_neg (by omega)]

/-- Witness state for C7: two snapshots, cursor on the second. -/
def s7 : AppState :=
  { components := [wBlk], history := [[], [wBlk]], historyIndex := 1 }

/-- Witness for C7: undo then redo at the concrete state restores cursor 1
and the snapshot stored there. -/
theorem undo_redo_roundtrip_witness :
    (0 : Int) < s7.historyIndex
    ∧ (redoState (undoState s7)).historyIndex = s7.historyIndex :=
  ⟨by decide, (undo_redo_roundtrip s7 (by decide) (by decide)).1⟩

/-! ## C8: committing discards the redo branch -/

lemma redoState_step_inv (t : AppState) (h0 : 0 ≤ t.historyIndex) :
    0 ≤ (redoState t).historyIndex
    ∧ (redoState t).history = t.history
    ∧ ((redoState t).components = t.components ∨ (redoState t).components ∈ t.history) := by
  unfold redoState
  split
  · rename_i hc
    refine ⟨by simp only; omega, rfl, Or.inr ?_⟩
    simp only
    have hlt : (t.historyIndex + 1).toNat < t.history.length := by omega
    rw [List.getD_eq_getElem t.history [] hlt]
    exact List.getElem_mem hlt
  · exact ⟨h0, rfl, Or.inl rfl⟩

/-- C8: a commit keeps only the snapshots at indices up to the cursor plus
the new snapshot, so however many redo calls follow, the current layout is
always the new snapshot or one of the kept snapshots — never one of the
discarded ones; and redo at the end of the list is a no-op. -/
theorem commit_discards_redo (s : AppState) (snap : List Block) (k : Nat) :
    (∀ x ∈ (redoState^[k] (commitState s snap)).history,
        x = snap ∨ x ∈ s.history.take (s.historyIndex + 1).toNat)
    ∧ ((redoState^[k] (commitState s snap)).components = snap
        ∨ (redoState^[k] (commitState s snap)).components ∈
            s.history.take (s.historyIndex + 1).toNat)
    ∧ (∀ t : AppState, (t.history.length : Int) - 1 ≤ t.historyIndex →
        redoState t = t) := by
  have hnoop : ∀ t : AppState, (t.history.length : Int) - 1 ≤ t.historyIndex →
      redoState t = t := by
    intro t ht
    unfold redoState
    rw [if_neg (by omega)]
  have hinv : ∀ n : Nat,
      0 ≤ (redoState^[n] (commitState s snap)).historyIndex
      ∧ (redoState^[n] (commitState s snap)).history = (commitState s snap).history
      ∧ ((redoState^[n] (commitState s snap)).components = snap
         ∨ (redoState^[n] (commitState s snap)).components ∈ (commitState s snap).history) := by
    intro n
    induction n with
    | zero =>
      exact ⟨commitState_index_nonneg s snap, rfl, Or.inl (commitState_components s snap)⟩
    | succ n ih =>
      obtain ⟨ih0, ih1, ih2⟩ := ih
      obtain ⟨h0, h1, h2⟩ := redoState_step_inv _ ih0
      rw [Function.iterate_succ_apply']
      refine ⟨h0, by rw [h1, ih1], ?_⟩
      rcases h2 with h | h
      · rw [h]
        exact ih2
      · rw [ih1] at h
        exact Or.inr h
  obtain ⟨h0, h1, h2⟩ := hinv k
  refine ⟨?_, ?_, hnoop⟩
  · intro x hx
    rw [h1] at hx
    exact commitState_history_mem s snap x hx
  · rcases h2 with h | h
    · exact Or.inl h
    · exact commitState_history_mem s snap _ h

/-- Witness for C8: after a commit onto the empty history and one redo,
the current layout is the committed snapshot or a kept one. -/
theorem commit_discards_redo_witness :
    (redoState^[1] (commitState initState [wBlk])).components = [wBlk]
    ∨ (redoState^[1] (commitState initState [wBlk])).components ∈
        initState.history.take (initState.historyIndex + 1).toNat :=
  (commit_discards_redo initState [wBlk] 1).2.1

/-! ## C2: block bounds over reachable states -/

/-- The part of the grid invariant every operation does preserve:
widths stay in [1, 12], both for the live layout and for every stored
snapshot. -/
def WidthInv (s : AppState) : Prop :=
  (∀ b ∈ s.components, 1 ≤ b.width ∧ b.width ≤ 12)
  ∧ (∀ l ∈ s.history, ∀ b ∈ l, 1 ≤ b.width ∧ b.width ≤ 12)

lemma commit_widthInv (s : AppState) (snap : List Block) (hs : WidthInv s)
    (hsnap : ∀ b ∈ snap, 1 ≤ b.width ∧ b.width ≤ 12) :
    WidthInv (commitState s snap) := by
  constructor
  · rw [commitState_components]
    exact hsnap
  · intro l hl
    rcases commitState_history_mem s snap l hl with h | h
    · subst h
      exact hsnap
    · exact hs.2 l (List.take_subset _ _ h)

lemma resizeMove_width_bounds (dir : ResizeDir) (sw sx : Int) (cur : Int × Int)
    (d : Int) (h1 : 1 ≤ cur.1) (h2 : cur.1 ≤ 12) :
    1 ≤ (resizeMove dir sw sx cur d).1 ∧ (resizeMove dir sw sx cur d).1 ≤ 12 := by
  cases dir <;> simp only [resizeMove] <;> split
  · constructor <;> simp only [Prod.fst] <;> omega
  · exact ⟨h1, h2⟩
  · constructor <;> simp only [Prod.fst] <;> omega
  · exact ⟨h1, h2⟩

lemma resize_fold_width (dir : ResizeDir) (sw sx : Int) (deltas : List Int)
    (cur : Int × Int) (h1 : 1 ≤ cur.1) (h2 : cur.1 ≤ 12) :
    1 ≤ (deltas.foldl (resizeMove dir sw sx) cur).1
    ∧ (deltas.foldl (resizeMove dir sw sx) cur).1 ≤ 12 := by
  induction deltas generalizing cur with
  | nil => exact ⟨h1, h2⟩
  | cons d ds ih =>
    rw [List.foldl_cons]
    obtain ⟨g1, g2⟩ := resizeMove_width_bounds dir sw sx cur d h1 h2
    exact ih (resizeMove dir sw sx cur d) g1 g2

lemma addEvent_widthInv (s : AppState) (k : BlockKind) (newId : String)
    (hs : WidthInv s) : WidthInv (addEvent s k newId) := by
  apply commit_widthInv _ _ hs
  intro b hb
  rcases List.mem_append.mp hb with h | h
  · exact hs.1 b h
  · have hb2 : b = mkBlock k newId (calculateNextPosition s.components) :=
      List.mem_singleton.mp h
    subst hb2
    cases k <;> simp [mkBlock]

lemma reorder_width_mem (l : List Block) (mid : String) (gX gY : Int)
    (l' : List Block) (h : reorder l mid gX gY = some l') :
    ∀ b' ∈ l', ∃ b ∈ l, b'.width = b.width := by
  unfold reorder at h
  cases hf : l.find? (fun c => decide (c.id = mid)) with
  | none =>
    rw [hf] at h
    exact absurd h (by simp)
  | some dragged =>
    rw [hf] at h
    cases hft : l.find? (fun c => decide (isReorderTarget mid gX gY c)) with
    | some target =>
      rw [hft] at h
      simp only [Option.some.injEq] at h
      subst h
      intro b' hb'
      obtain ⟨b, hb, hbe⟩ := List.mem_map.mp hb'
      refine ⟨b, hb, ?_⟩
      subst hbe
      split
      · rfl
      · split <;> rfl
    | none =>
      rw [hft] at h
      simp only [Option.some.injEq] at h
      subst h
      intro b' hb'
      obtain ⟨b, hb, hbe⟩ := List.mem_map.mp hb'
      refine ⟨b, hb, ?_⟩
      subst hbe
      split <;> rfl

lemma reorderEvent_widthInv (s : AppState) (mid : String) (gX gY : Int)
    (hs : WidthInv s) : WidthInv (reorderEvent s mid gX gY) := by
  unfold reorderEvent
  cases hr : reorder s.components mid gX gY with
  | none => exact hs
  | some l' =>
    apply commit_widthInv _ _ hs
    intro b hb
    obtain ⟨b0, hb0, hw⟩ := reorder_width_mem _ _ _ _ _ hr b hb
    rw [hw]
    exact hs.1 b0 hb0

lemma resizeEvent_widthInv (s : AppState) (cid : String) (dir : ResizeDir)
    (deltas : List Int) (hs : WidthInv s) : WidthInv (resizeEvent s cid dir deltas) := by
  apply commit_widthInv _ _ hs
  intro b hb
  obtain ⟨c, hc, he⟩ := List.mem_map.mp hb
  subst he
  by_cases h : c.id = cid
  · rw [if_pos h]
    have hc2 := hs.1 c hc
    exact resize_fold_width dir c.width c.position.x deltas (c.width, c.position.x)
      hc2.1 hc2.2
  · rw [if_neg h]
    exact hs.1 c hc

lemma deleteEvent_widthInv (s : AppState) (cid : String) (hs : WidthInv s) :
    WidthInv (deleteEvent s cid) := by
  apply commit_widthInv _ _ hs
  intro b hb
  exact hs.1 b (List.mem_of_mem_filter hb)

lemma undoState_widthInv {s : AppState} (hs : WidthInv s) : WidthInv (undoState s) := by
  refine ⟨?_, by rw [undoState_history]; exact hs.2⟩
  unfold undoState
  split
  · rcases getD_default_or_mem s.history (s.historyIndex - 1).toNat with h | h
    · simp only [h]
      intro b hb
      exact absurd hb (List.not_mem_nil b)
    · exact fun b hb => hs.2 _ h b hb
  · exact hs.1

lemma redoState_widthInv {s : AppState} (hs : WidthInv s) : WidthInv (redoState s) := by
  refine ⟨?_, by rw [redoState_history]; exact hs.2⟩
  unfold redoState
  split
  · rcases getD_default_or_mem s.history (s.historyIndex + 1).toNat with h | h
    · simp only [h]
      intro b hb
      exact absurd hb (List.not_mem_nil b)
    · exact fun b hb => hs.2 _ h b hb
  · exact hs.1

lemma reachable_widthInv (s : AppState) (h : Reachable s) : WidthInv s := by
  induction h with
  | init => exact ⟨by simp [initState], by simp [initState]⟩
  | add h k newId ih => exact addEvent_widthInv _ _ _ ih
  | reorderStep h mid gX gY hx0 hx1 hy ih => exact reorderEvent_widthInv _ _ _ _ ih
  | resizeStep h cid dir deltas ih => exact resizeEvent_widthInv _ _ _ _ ih
  | deleteStep h cid ih => exact deleteEvent_widthInv _ _ ih
  | undoStep h ih => exact undoState_widthInv ih
  | redoStep h ih => exact redoState_widthInv ih

/-- C2 (amended): along every sequence of add, reorder, resize, delete,
undo and redo from the empty layout, every block of the resulting layout
satisfies 1 ≤ width ≤ 12.  The stronger conjunct position.x + width ≤ 12
of the original claim is NOT an invariant: the reorder swap branch breaks
it (see the counterexample). -/
theorem reachable_width_in_bounds (s : AppState) (h : Reachable s) :
    ∀ b ∈ s.components, 1 ≤ b.width ∧ b.width ≤ 12 :=
  (reachable_widthInv s h).1

/-- Witness for C2: the single block of the layout after one add. -/
theorem reachable_width_in_bounds_witness :
    1 ≤ (mkBlock .text "a" { x := 0, y := 0 }).width
    ∧ (mkBlock .text "a" { x := 0, y := 0 }).width ≤ 12 :=
  reachable_width_in_bounds _ (Reachable.add Reachable.init .text "a") _ (by decide)

/-- A reachable state violating position.x + width ≤ 12: add a text block,
resize it to width 12, add two more blocks on the next row, then drag the
wide block onto the second of them; the swap puts the width-12 block at
x = 6. -/
def cex2State : AppState :=
  reorderEvent
    (addEvent
      (addEvent
        (resizeEvent (addEvent initState .text "a") "a" .right [600])
        .image "b")
      .text "c")
    "a" 6 1

/-- Counterexample for C2 as stated: cex2State is reachable by the listed
operations yet holds a block with position.x + width = 18 > 12. -/
theorem reachable_overflow_block_cex :
    Reachable cex2State
    ∧ ∃ b ∈ cex2State.components, 12 < b.position.x + b.width := by
  constructor
  · exact Reachable.reorderStep
      (Reachable.add
        (Reachable.add
          (Reachable.resizeStep (Reachable.add Reachable.init .text "a") "a" .right [600])
          .image "b")
        .text "c")
      "a" 6 1 (by decide) (by decide) (by decide)
  · decide

/-! ## C1: the reorder swap and the overlap invariant -/

lemma sep_symm {a b : Block} (h : sep a b) : sep b a := by
  unfold sep at h ⊢
  tauto

lemma sep_of_fields {a b a2 b2 : Block}
    (h1 : a.position = a2.position) (h2 : a.width = a2.width)
    (h3 : b.position = b2.position) (h4 : b.width = b2.width)
    (h : sep a2 b2) : sep a b := by
  unfold sep at h ⊢
  rw [h1, h2, h3, h4]
  exact h

/-- C1 (amended): on a layout with unique ids and no overlapping blocks,
the swap branch of reorder preserves the no-overlap invariant PROVIDED the
dragged and the target block have equal widths.  (With unequal widths the
swap can introduce an overlap: see the counterexample.) -/
theorem reorder_swap_equal_width_no_overlap
    (l : List Block) (d t : Block) (mid : String) (gX gY : Int)
    (hno : NoOverlap l)
    (hnd : (l.map Block.id).Nodup)
    (hd : l.find? (fun c => decide (c.id = mid)) = some d)
    (ht : l.find? (fun c => decide (isReorderTarget mid gX gY c)) = some t)
    (hw : d.width = t.width) :
    reorder l mid gX gY = some (swapPositions l mid d t)
    ∧ NoOverlap (swapPositions l mid d t) := by
  have hdid : d.id = mid := by
    have h0 := List.find?_some hd
    simp only [decide_eq_true_eq] at h0
    exact h0
  have htgt : isReorderTarget mid gX gY t := by
    have h0 := List.find?_some ht
    simp only [decide_eq_true_eq] at h0
    exact h0
  have htid : t.id ≠ mid := htgt.1
  constructor
  · simp only [reorder, hd, ht]
  obtain ⟨i, hi, hgi⟩ := List.getElem_of_mem (List.mem_of_find?_eq_some hd)
  obtain ⟨j, hj, hgj⟩ := List.getElem_of_mem (List.mem_of_find?_eq_some ht)
  have hpw : l.Pairwise (fun a b => a.id ≠ b.id) := List.pairwise_map.mp hnd
  have hidx := List.pairwise_iff_getElem.mp hpw
  have hinj : ∀ (p q : Nat) (hp : p < l.length) (hq : q < l.length),
      l[p].id = l[q].id → p = q := by
    intro p q hp hq he
    rcases Nat.lt_trichotomy p q with h | h | h
    · exact absurd he (hidx p q hp hq h)
    · exact h
    · exact absurd he.symm (hidx q p hq hp h)
  have hij : i ≠ j := by
    intro h
    apply htid
    subst h
    have hdt : d = t := hgi.symm.trans hgj
    rw [← hdt]
    exact hdid
  have hsep2 : ∀ (p q : Nat) (hp : p < l.length) (hq : q < l.length),
      p ≠ q → sep l[p] l[q] := by
    intro p q hp hq hne
    have hs := List.pairwise_iff_getElem.mp hno
    rcases Nat.lt_trichotomy p q with h | h | h
    · exact hs p q hp hq h
    · exact absurd h hne
    · exact sep_symm (hs q p hq hp h)
  unfold NoOverlap swapPositions
  rw [List.pairwise_iff_getElem]
  intro a b ha hb hab
  rw [List.length_map] at ha hb
  simp only [List.getElem_map]
  have hne : a ≠ b := Nat.ne_of_lt hab
  by_cases hai : a = i
  · subst hai
    rw [hgi, if_pos hdid]
    by_cases hbj : b = j
    · subst hbj
      rw [hgj, if_neg htid, if_pos (rfl : t.id = t.id)]
      have hst := hsep2 b a hb ha (Ne.symm hij)
      rw [hgi, hgj] at hst
      exact @sep_of_fields _ _ t d rfl hw rfl hw.symm hst
    · have h1 : l[b].id ≠ mid := fun h =>
        (Ne.symm hne) (hinj b a hb ha (by rw [h, hgi, hdid]))
      have h2 : l[b].id ≠ t.id := fun h => hbj (hinj b j hb hj (by rw [h, hgj]))
      rw [if_neg h1, if_neg h2]
      have hst := hsep2 j b hj hb (fun h => hbj h.symm)
      rw [hgj] at hst
      exact @sep_of_fields _ _ t (l[b]) rfl hw rfl rfl hst
  · by_cases haj : a = j
    · subst haj
      rw [hgj, if_neg htid, if_pos (rfl : t.id = t.id)]
      by_cases hbi : b = i
      · subst hbi
        rw [hgi, if_pos hdid]
        have hst := hsep2 b a hb ha hij
        rw [hgi, hgj] at hst
        exact @sep_of_fields _ _ d t rfl hw.symm rfl hw hst
      · have h1 : l[b].id ≠ mid := fun h => hbi (hinj b i hb hi (by rw [h, hgi, hdid]))
        have h2 : l[b].id ≠ t.id := fun h =>
          (Ne.symm hne) (hinj b a hb ha (by rw [h, hgj]))
        rw [if_neg h1, if_neg h2]
        have hst := hsep2 i b hi hb (fun h => hbi h.symm)
        rw [hgi] at hst
        exact @sep_of_fields _ _ d (l[b]) rfl hw.symm rfl rfl hst
    · have h1 : l[a].id ≠ mid := fun h => hai (hinj a i ha hi (by rw [h, hgi, hdid]))
      have h2 : l[a].id ≠ t.id := fun h => haj (hinj a j ha hj (by rw [h, hgj]))
      rw [if_neg h1, if_neg h2]
      by_cases hbi : b = i
      · subst hbi
        rw [hgi, if_pos hdid]
        have hst := hsep2 a j ha hj (fun h => haj h)
        rw [hgj] at hst
        exact @sep_of_fields _ _ (l[a]) t rfl rfl rfl hw hst
      · by_cases hbj : b = j
        · subst hbj
          rw [hgj, if_neg htid, if_pos (rfl : t.id = t.id)]
          have hst := hsep2 a i ha hi (fun h => hai h)
          rw [hgi] at hst
          exact @sep_of_fields _ _ (l[a]) d rfl rfl rfl hw.symm hst
        · have h3 : l[b].id ≠ mid := fun h => hbi (hinj b i hb hi (by rw [h, hgi, hdid]))
          have h4 : l[b].id ≠ t.id := fun h => hbj (hinj b j hb hj (by rw [h, hgj]))
          rw [if_neg h3, if_neg h4]
          exact hsep2 a b ha hb hne

/-- Equal-width witness blocks for C1. -/
def wA : Block :=
  { id := "a", type := .text, content := "", width := 6, position := { x := 0, y := 0 } }

/-- Equal-width witness blocks for C1. -/
def wB : Block :=
  { id := "b", type := .image, content := "", width := 6, position := { x := 6, y := 0 } }

/-- Witness for C1: swapping two width-6 blocks keeps the layout
overlap-free. -/
theorem reorder_swap_equal_width_no_overlap_witness :
    NoOverlap [wA, wB] ∧ NoOverlap (swapPositions [wA, wB] "a" wA wB) :=
  ⟨by decide,
    (reorder_swap_equal_width_no_overlap [wA, wB] wA wB "a" 6 0
      (by decide) (by decide) (by decide) (by decide) rfl).2⟩

/-- Unequal-width blocks breaking the claim: width 1 at column 0 and
width 2 at column 1, same row. -/
def cexA : Block :=
  { id := "a", type := .text, content := "", width := 1, position := { x := 0, y := 0 } }

/-- Unequal-width blocks breaking the claim: width 1 at column 0 and
width 2 at column 1, same row. -/
def cexB : Block :=
  { id := "b", type := .text, content := "", width := 2, position := { x := 1, y := 0 } }

/-- Counterexample for C1 as stated: the layout [cexA, cexB] has no
overlap and unique ids, dropping cexA at cell (1,0) finds the distinct
target cexB, yet the swapped layout DOES overlap (cexA lands on [1,2),
cexB on [0,2), same row). -/
theorem reorder_swap_overlap_cex :
    NoOverlap [cexA, cexB]
    ∧ ([cexA, cexB].map Block.id).Nodup
    ∧ [cexA, cexB].find? (fun c => decide (c.id = "a")) = some cexA
    ∧ [cexA, cexB].find? (fun c => decide (isReorderTarget "a" 1 0 c)) = some cexB
    ∧ cexB.id ≠ "a"
    ∧ reorder [cexA, cexB] "a" 1 0 = some (swapPositions [cexA, cexB] "a" cexA cexB)
    ∧ ¬ NoOverlap (swapPositions [cexA, cexB] "a" cexA cexB) := by
  refine ⟨by decide, by decide, by decide, by decide, by decide, by decide, by decide⟩
